import Mathlib

/-!
Verification of the forecasting-and-optimization engine of the retail
supply-chain optimizer (src/ml_forecasting.py) against its specification.

Numeric cells of pandas frames are modelled as real numbers; a cell that can
hold NaN is modelled as `Option ℝ` with `none` standing for NaN (pandas
propagates NaN through arithmetic and skips it in `mean`/`std`, which is
mirrored explicitly below).  Dates are modelled as integers (day numbers);
one calendar day after date `d` is `d + 1`.
-/

open scoped Classical

set_option maxRecDepth 4000

noncomputable section

/-- Insert a date into a sorted duplicate-free list of dates, keeping it
sorted and duplicate-free.  Used to model the sorted unique keys produced by
a pandas `groupby('date')`. -/
def insertSorted (d : ℤ) : List ℤ → List ℤ
  | [] => [d]
  | x :: xs => if d < x then d :: x :: xs else if d = x then x :: xs else x :: insertSorted d xs

/-- Sorted list of the distinct dates of a series, as `groupby` orders its keys. -/
def sortedKeys (dates : List ℤ) : List ℤ := dates.foldr insertSorted []

theorem mem_insertSorted {d x : ℤ} {l : List ℤ} :
    x ∈ insertSorted d l ↔ x = d ∨ x ∈ l := by
  induction l with
  | nil => simp [insertSorted]
  | cons a as ih =>
    by_cases h1 : d < a
    · simp [insertSorted, h1]
    · by_cases h2 : d = a
      · subst h2
        simp [insertSorted, h1]
      · simp [insertSorted, h1, h2, ih]
        tauto

theorem pairwise_insertSorted {d : ℤ} {l : List ℤ}
    (h : l.Pairwise (· < ·)) : (insertSorted d l).Pairwise (· < ·) := by
  induction l with
  | nil => simp [insertSorted]
  | cons a as ih =>
    rcases List.pairwise_cons.mp h with ⟨ha, has⟩
    by_cases h1 : d < a
    · have step : insertSorted d (a :: as) = d :: a :: as := by
        simp [insertSorted, h1]
      rw [step]
      refine List.pairwise_cons.mpr ⟨?_, h⟩
      intro b hb
      rcases List.mem_cons.mp hb with hb | hb
      · exact hb ▸ h1
      · exact lt_trans h1 (ha b hb)
    · by_cases h2 : d = a
      · simpa [insertSorted, h1, h2] using h
      · have hd : a < d := by omega
        have step : insertSorted d (a :: as) = a :: insertSorted d as := by
          simp [insertSorted, h1, h2]
        rw [step]
        refine List.pairwise_cons.mpr ⟨?_, ih has⟩
        intro b hb
        rcases mem_insertSorted.mp hb with hb | hb
        · exact hb ▸ hd
        · exact ha b hb

theorem pairwise_sortedKeys (dates : List ℤ) : (sortedKeys dates).Pairwise (· < ·) := by
  induction dates with
  | nil => simp [sortedKeys]
  | cons a as ih => exact pairwise_insertSorted ih

theorem mem_sortedKeys {dates : List ℤ} {d : ℤ} :
    d ∈ sortedKeys dates ↔ d ∈ dates := by
  induction dates with
  | nil => simp [sortedKeys]
  | cons a as ih =>
    show d ∈ insertSorted a (sortedKeys as) ↔ _
    rw [mem_insertSorted]
    simp [ih]

theorem insertSorted_of_lt {d : ℤ} {l : List ℤ}
    (h : ∀ x ∈ l, d < x) : insertSorted d l = d :: l := by
  cases l with
  | nil => rfl
  | cons a as => simp [insertSorted, h a (List.mem_cons_self a as)]

theorem sortedKeys_of_sorted {dates : List ℤ}
    (h : dates.Pairwise (· < ·)) : sortedKeys dates = dates := by
  induction dates with
  | nil => rfl
  | cons a as ih =>
    rcases List.pairwise_cons.mp h with ⟨ha, has⟩
    have : sortedKeys (a :: as) = insertSorted a (sortedKeys as) := rfl
    rw [this, ih has, insertSorted_of_lt ha]

/-- Model of `df.groupby('date')['quantity'].sum()`: for each distinct date in
ascending order, the sum of the quantities recorded on that date. -/
def aggregate (df : List (ℤ × ℝ)) : List (ℤ × ℝ) :=
  (sortedKeys (df.map Prod.fst)).map fun d =>
    (d, ((df.filter fun r => r.1 = d).map Prod.snd).sum)

theorem pairwise_aggregate_dates (df : List (ℤ × ℝ)) :
    ((aggregate df).map Prod.fst).Pairwise (· < ·) := by
  have heq : (aggregate df).map Prod.fst = sortedKeys (df.map Prod.fst) := by
    rw [aggregate, List.map_map]
    have h2 : ∀ d ∈ sortedKeys (df.map Prod.fst),
        (Prod.fst ∘ fun d => (d, ((df.filter fun r => r.1 = d).map Prod.snd).sum)) d
          = id d := fun d _ => rfl
    rw [List.map_congr_left h2, List.map_id]
  rw [heq]
  exact pairwise_sortedKeys _

theorem aggregate_of_pairwise {df : List (ℤ × ℝ)}
    (h : (df.map Prod.fst).Pairwise (· < ·)) : aggregate df = df := by
  induction df with
  | nil => rfl
  | cons r rs ih =>
    have hmap : ((r :: rs).map Prod.fst) = r.1 :: rs.map Prod.fst := rfl
    rw [hmap] at h
    rcases List.pairwise_cons.mp h with ⟨ha, has⟩
    have hkeys : sortedKeys ((r :: rs).map Prod.fst) = r.1 :: rs.map Prod.fst := by
      rw [hmap]
      show insertSorted r.1 (sortedKeys (rs.map Prod.fst)) = _
      rw [sortedKeys_of_sorted has, insertSorted_of_lt ha]
    have hne : ∀ x ∈ rs, ¬ x.1 = r.1 := by
      intro x hx
      have := ha x.1 (List.mem_map_of_mem Prod.fst hx)
      omega
    have hfilter_r : (rs.filter fun x => x.1 = r.1) = [] := by
      rw [List.filter_eq_nil_iff]
      intro x hx
      simpa using hne x hx
    have hfirst : ((r :: rs).filter fun x => x.1 = r.1) = [r] := by
      simp [List.filter_cons, hfilter_r]
    have hrest : ∀ d ∈ rs.map Prod.fst,
        ((r :: rs).filter fun x => x.1 = d) = rs.filter fun x => x.1 = d := by
      intro d hd
      rcases List.mem_map.mp hd with ⟨x, hx, hxd⟩
      have : ¬ r.1 = d := by
        have := ha d hd
        omega
      simp [List.filter_cons, this]
    calc aggregate (r :: rs)
        = ((r.1 :: rs.map Prod.fst).map fun d =>
            (d, (((r :: rs).filter fun x => x.1 = d).map Prod.snd).sum)) := by
          rw [aggregate, hkeys]
      _ = r :: rs := by
          rw [List.map_cons]
          congr 1
          · rw [hfirst]; simp
          · have : ∀ d ∈ rs.map Prod.fst,
                (d, (((r :: rs).filter fun x => x.1 = d).map Prod.snd).sum)
                  = (d, ((rs.filter fun x => x.1 = d).map Prod.snd).sum) := by
              intro d hd
              rw [hrest d hd]
            rw [List.map_congr_left this]
            have hagg : aggregate rs = rs := ih has
            calc (rs.map Prod.fst).map
                  (fun d => (d, ((rs.filter fun x => x.1 = d).map Prod.snd).sum))
                = aggregate rs := by
                  rw [aggregate, sortedKeys_of_sorted has]
              _ = rs := hagg

/-- Mean of a pandas numeric series with no missing values (`series.mean()`). -/
def listMean (v : List ℝ) : ℝ := v.sum / v.length

/-- Sample standard deviation of a pandas numeric series with no missing
values (`series.std()`, `ddof = 1`): NaN (`none`) on fewer than two values. -/
def listStd (v : List ℝ) : Option ℝ :=
  if v.length < 2 then none
  else some (Real.sqrt (((v.map fun x => (x - listMean v) ^ 2).sum) / ((v.length : ℝ) - 1)))

/-- Result dictionary of `DemandForecaster.optimize_inventory`.  Fields that
can be NaN (everything derived from the sample standard deviation) are
`Option ℝ`. -/
structure InvParams where
  daily_demand : ℝ
  demand_std : Option ℝ
  reorder_point : Option ℝ
  safety_stock : Option ℝ
  economic_order_quantity : ℝ
  lead_time_days : ℕ
  service_level : ℝ

/-- Model of `DemandForecaster.optimize_inventory`: aggregate daily sales by
date, take mean and sample standard deviation of the daily totals, and derive
safety stock, reorder point and EOQ.  NaN propagation through the
`safety_stock`/`reorder_point` arithmetic is modelled with `Option.map`. -/
def optimize_inventory (df : List (ℤ × ℝ)) (holding_cost : ℝ) : InvParams :=
  let daily_sales := (aggregate df).map Prod.snd
  let daily_demand := listMean daily_sales
  let demand_std := listStd daily_sales
  let lead_time_demand := daily_demand * 7
  let lead_time_std := demand_std.map fun s => s * Real.sqrt 7
  let safety_stock := lead_time_std.map fun s => 1.645 * s
  let reorder_point := safety_stock.map fun ss => lead_time_demand + ss
  let annual_demand := daily_demand * 365
  let ordering_cost : ℝ := 100
  let eoq := Real.sqrt (2 * annual_demand * ordering_cost / (holding_cost * 365))
  ⟨daily_demand, demand_std, reorder_point, safety_stock, eoq, 7, 0.95⟩

theorem aggregate_values_nonneg {df : List (ℤ × ℝ)} (hq : ∀ r ∈ df, 0 ≤ r.2) :
    ∀ v ∈ (aggregate df).map Prod.snd, 0 ≤ v := by
  intro v hv
  rcases List.mem_map.mp hv with ⟨p, hp, hpv⟩
  rcases List.mem_map.mp hp with ⟨d, _, hdp⟩
  subst hdp
  subst hpv
  refine List.sum_nonneg ?_
  intro x hx
  rcases List.mem_map.mp hx with ⟨r, hr, hrx⟩
  subst hrx
  exact hq r (List.mem_of_mem_filter hr)

/-- Formulas and consequences claimed for the Inventory Optimizer. -/
def InvFormulasProp (df : List (ℤ × ℝ)) (h : ℝ) : Prop :=
  (optimize_inventory df h).safety_stock
      = (optimize_inventory df h).demand_std.map (fun s => 1.645 * (s * Real.sqrt 7)) ∧
  (optimize_inventory df h).reorder_point
      = (optimize_inventory df h).safety_stock.map
          (fun ss => (optimize_inventory df h).daily_demand * 7 + ss) ∧
  (optimize_inventory df h).economic_order_quantity
      = Real.sqrt (2 * ((optimize_inventory df h).daily_demand * 365) * 100 / (h * 365)) ∧
  (∀ s, (optimize_inventory df h).safety_stock = some s → 0 ≤ s →
     ∃ rp, (optimize_inventory df h).reorder_point = some rp ∧
           (optimize_inventory df h).daily_demand * 7 ≤ rp) ∧
  ((optimize_inventory df h).economic_order_quantity = 0 →
     (optimize_inventory df h).daily_demand * 365 = 0)

/-- C3: the Inventory Optimizer computes exactly
safetyStock = 1.645 · stdDailyDemand · √leadTime,
reorderPoint = meanDailyDemand · leadTime + safetyStock and
EOQ = √(2 · annualDemand · orderingCost / (holdingRate · 365)); consequently
reorderPoint ≥ meanDailyDemand · leadTime whenever safetyStock ≥ 0, and EOQ
is zero only when the annual demand is zero. -/
theorem optimize_inventory_formulas (df : List (ℤ × ℝ)) (h : ℝ)
    (hq : ∀ r ∈ df, 0 ≤ r.2) (hh : 0 < h) : InvFormulasProp df h := by
  have hdd : 0 ≤ (optimize_inventory df h).daily_demand := by
    show 0 ≤ listMean ((aggregate df).map Prod.snd)
    unfold listMean
    refine div_nonneg (List.sum_nonneg ?_) (by positivity)
    exact aggregate_values_nonneg hq
  refine ⟨?_, rfl, rfl, ?_, ?_⟩
  · show ((listStd ((aggregate df).map Prod.snd)).map fun s => s * Real.sqrt 7).map
        (fun s => 1.645 * s)
      = (listStd ((aggregate df).map Prod.snd)).map fun s => 1.645 * (s * Real.sqrt 7)
    rw [Option.map_map]
    rfl
  · intro s hs hs0
    refine ⟨(optimize_inventory df h).daily_demand * 7 + s, ?_, by linarith⟩
    show ((optimize_inventory df h).safety_stock.map fun ss => _ + ss) = _
    rw [hs]
    rfl
  · intro h0
    have hx : (2 * ((optimize_inventory df h).daily_demand * 365) * 100 / (h * 365)) ≤ 0 := by
      have := Real.sqrt_eq_zero'.mp h0
      exact this
    have hx2 : 0 ≤ 2 * ((optimize_inventory df h).daily_demand * 365) * 100 / (h * 365) := by
      apply div_nonneg
      · nlinarith
      · nlinarith
    have hx0 : 2 * ((optimize_inventory df h).daily_demand * 365) * 100 / (h * 365) = 0 :=
      le_antisymm hx hx2
    have hden : h * 365 ≠ 0 := by positivity
    rcases div_eq_zero_iff.mp hx0 with hnum | hden2
    · nlinarith
    · exact absurd hden2 hden

/-- Witness for C3 on a concrete one-day series. -/
theorem optimize_inventory_formulas_witness :
    (∀ r ∈ [((0:ℤ), (2:ℝ))], 0 ≤ r.2) ∧ (0:ℝ) < 1 ∧ InvFormulasProp [((0:ℤ), (2:ℝ))] 1 := by
  refine ⟨?_, by norm_num, optimize_inventory_formulas _ _ ?_ (by norm_num)⟩ <;>
  · intro r hr
    rcases List.mem_singleton.mp hr with h
    subst h
    norm_num

theorem pairwise_fst_map_range (f : ℕ → ℤ × ℝ) (n : ℕ)
    (hf : ∀ i j, i < j → (f i).1 < (f j).1) :
    ((((List.range n).map f)).map Prod.fst).Pairwise (· < ·) := by
  rw [List.map_map, List.pairwise_map]
  exact (List.pairwise_lt_range n).imp fun hij => hf _ _ hij

/-- C7 counterexample: on a single-day series the sample standard deviation is
NaN, and the code propagates it — `safety_stock` is NaN (`none`), not zero. -/
theorem optimize_inventory_single_day_cex :
    (optimize_inventory [((0:ℤ), (5:ℝ))] 0.1).safety_stock = none ∧
    (optimize_inventory [((0:ℤ), (5:ℝ))] 0.1).safety_stock ≠ some 0 := by
  have hagg : aggregate [((0:ℤ), (5:ℝ))] = [((0:ℤ), (5:ℝ))] :=
    aggregate_of_pairwise (by simp)
  have hstd : listStd (([((0:ℤ), (5:ℝ))]).map Prod.snd) = none := by
    simp [listStd]
  constructor
  · show ((listStd ((aggregate [((0:ℤ), (5:ℝ))]).map Prod.snd)).map
        fun s => s * Real.sqrt 7).map (fun s => 1.645 * s) = none
    rw [hagg, hstd]
    rfl
  · show ((listStd ((aggregate [((0:ℤ), (5:ℝ))]).map Prod.snd)).map
        fun s => s * Real.sqrt 7).map (fun s => 1.645 * s) ≠ some 0
    rw [hagg, hstd]
    simp

/-- Constant-demand scenario: 100 units a day for 400 consecutive days. -/
def constDemandDf : List (ℤ × ℝ) := (List.range 400).map fun (i : ℕ) => ((i : ℤ), (100 : ℝ))

theorem constDemand_values :
    (aggregate constDemandDf).map Prod.snd = List.replicate 400 (100 : ℝ) := by
  have hagg : aggregate constDemandDf = constDemandDf := by
    rw [constDemandDf]
    refine aggregate_of_pairwise (pairwise_fst_map_range _ 400 ?_)
    intro i j hij
    simpa using hij
  rw [hagg, constDemandDf, List.map_map]
  have hc : (Prod.snd ∘ fun i : ℕ => ((i : ℤ), (100:ℝ))) = fun _ : ℕ => (100:ℝ) := rfl
  rw [hc, List.map_const', List.length_range]

/-- C7 (amended): a *zero* demand standard deviation yields zero safety stock,
an *undefined* one (single-day series) yields an undefined (NaN) safety stock
rather than zero or an error; in the constant-demand scenario (100 units/day
for 400 days, holdingCostRate 0.1) the optimizer returns demandStd = 0,
safetyStock = 0, reorderPoint = 700 and EOQ = √200000. -/
theorem optimize_inventory_zero_or_undefined_std :
    (∀ (df : List (ℤ × ℝ)) (h : ℝ), (optimize_inventory df h).demand_std = some 0 →
        (optimize_inventory df h).safety_stock = some 0) ∧
    (∀ (d : ℤ) (q h : ℝ), (optimize_inventory [(d, q)] h).safety_stock = none) ∧
    ((optimize_inventory constDemandDf 0.1).demand_std = some 0 ∧
     (optimize_inventory constDemandDf 0.1).safety_stock = some 0 ∧
     (optimize_inventory constDemandDf 0.1).reorder_point = some 700 ∧
     (optimize_inventory constDemandDf 0.1).economic_order_quantity = Real.sqrt 200000) := by
  have hzero : ∀ (df : List (ℤ × ℝ)) (h : ℝ), (optimize_inventory df h).demand_std = some 0 →
      (optimize_inventory df h).safety_stock = some 0 := by
    intro df h hstd
    have hstd2 : listStd ((aggregate df).map Prod.snd) = some 0 := hstd
    show ((listStd ((aggregate df).map Prod.snd)).map fun s => s * Real.sqrt 7).map
        (fun s => 1.645 * s) = some 0
    rw [hstd2]
    simp
  refine ⟨hzero, ?_, ?_⟩
  · intro d q h
    have hagg : aggregate [(d, q)] = [(d, q)] := aggregate_of_pairwise (by simp)
    show ((listStd ((aggregate [(d, q)]).map Prod.snd)).map fun s => s * Real.sqrt 7).map
        (fun s => 1.645 * s) = none
    rw [hagg]
    simp [listStd]
  · have hmean : listMean ((aggregate constDemandDf).map Prod.snd) = 100 := by
      rw [constDemand_values, listMean, List.sum_replicate]
      norm_num
    have hstd : listStd ((aggregate constDemandDf).map Prod.snd) = some 0 := by
      rw [constDemand_values, listStd]
      rw [if_neg (by simp)]
      have hm : listMean (List.replicate 400 (100:ℝ)) = 100 := by
        rw [listMean, List.sum_replicate]
        norm_num
      rw [hm]
      have : ((List.replicate 400 (100:ℝ)).map fun x => (x - 100) ^ 2)
          = List.replicate 400 (0:ℝ) := by
        rw [List.map_replicate]
        norm_num
      rw [this, List.sum_replicate]
      norm_num
    have hdd : (optimize_inventory constDemandDf 0.1).demand_std = some 0 := hstd
    have hsafety : (optimize_inventory constDemandDf 0.1).safety_stock = some 0 :=
      hzero _ _ hdd
    refine ⟨hdd, hsafety, ?_, ?_⟩
    · show ((optimize_inventory constDemandDf 0.1).safety_stock.map
          fun ss => listMean ((aggregate constDemandDf).map Prod.snd) * 7 + ss) = some 700
      rw [hsafety, hmean]
      simp
      norm_num
    · show Real.sqrt (2 * (listMean ((aggregate constDemandDf).map Prod.snd) * 365) * 100
          / (0.1 * 365)) = Real.sqrt 200000
      rw [hmean]
      norm_num

/-- Trailing window of (up to) `w` observations ending at index `i`,
as used by `series.rolling(window=w)`. -/
def rollWindow (v : List ℝ) (w i : ℕ) : List ℝ := (v.drop (i + 1 - w)).take w

/-- Value of `series.rolling(window=30).mean()` at row `i`: NaN (`none`)
until the window holds 30 observations. -/
def rollingMean30 (v : List ℝ) (i : ℕ) : Option ℝ :=
  if i + 1 < 30 then none else some ((rollWindow v 30 i).sum / 30)

/-- Value of `series.rolling(window=30).std()` at row `i` (`ddof = 1`, hence
division by 29): NaN (`none`) until the window holds 30 observations. -/
def rollingStd30 (v : List ℝ) (i : ℕ) : Option ℝ :=
  if i + 1 < 30 then none
  else some (Real.sqrt ((((rollWindow v 30 i).map
      fun x => (x - (rollWindow v 30 i).sum / 30) ^ 2).sum) / 29))

/-- An IEEE-754 value as it matters for the z-score column: NaN, +infinity,
or an ordinary real. -/
inductive RFloat where
  | nan : RFloat
  | inf : RFloat
  | val : ℝ → RFloat

/-- Comparison `z > t` of a z-score cell against a finite threshold, with the
IEEE semantics `NaN > t = False` and `+inf > t = True`. -/
def RFloat.rgt : RFloat → ℝ → Prop
  | RFloat.nan, _ => False
  | RFloat.inf, _ => True
  | RFloat.val x, t => t < x

/-- The z-score column `np.abs((quantity - mean) / std)` at row `i`:
NaN while the rolling statistics are undefined, NaN for 0/0, +infinity for
a nonzero deviation divided by a zero standard deviation. -/
def zscoreAt (v : List ℝ) (i : ℕ) : RFloat :=
  if i + 1 < 30 then RFloat.nan
  else
    let m := (rollWindow v 30 i).sum / 30
    let s := Real.sqrt ((((rollWindow v 30 i).map fun x => (x - m) ^ 2).sum) / 29)
    if s = 0 then (if |v.getD i 0 - m| = 0 then RFloat.nan else RFloat.inf)
    else RFloat.val (|v.getD i 0 - m| / s)

inductive Sev where
  | medium : Sev
  | high : Sev
deriving DecidableEq

/-- One row of the anomaly list produced by `detect_anomalies`. -/
structure AnomalyRecord where
  date : ℤ
  quantity : ℝ
  expected_quantity : ℝ
  deviation : ℝ
  z_score : RFloat
  severity : Sev

/-- Model of `DemandForecaster.detect_anomalies`: aggregate daily sales by
date, compute the trailing 30-observation rolling mean and standard deviation,
score each day by `|quantity - mean| / std`, and keep the days whose z-score
compares greater than the threshold (`high` severity above 3). -/
def detect_anomalies (df : List (ℤ × ℝ)) (threshold : ℝ) : List AnomalyRecord :=
  let agg := aggregate df
  let v := agg.map Prod.snd
  (List.range agg.length).filterMap fun i =>
    let q := v.getD i 0
    let m := (rollingMean30 v i).getD 0
    let z := zscoreAt v i
    if z.rgt threshold then
      some ⟨(agg.getD i ((0:ℤ), (0:ℝ))).1, q, m, q - m, z,
            if z.rgt 3 then Sev.high else Sev.medium⟩
    else none

theorem zscoreAt_nan_of_lt {v : List ℝ} {i : ℕ} (h : i + 1 < 30) :
    zscoreAt v i = RFloat.nan := by
  unfold zscoreAt
  rw [if_pos h]

theorem sum_nonneg_zero_mem {l : List ℝ} (hn : ∀ x ∈ l, 0 ≤ x) (h0 : l.sum = 0) :
    ∀ x ∈ l, x = 0 := by
  induction l with
  | nil => simp
  | cons a as ih =>
    have ha : 0 ≤ a := hn a (List.mem_cons_self a as)
    have has : 0 ≤ as.sum := List.sum_nonneg fun x hx => hn x (List.mem_cons_of_mem _ hx)
    have hsum : a + as.sum = 0 := by simpa using h0
    have ha0 : a = 0 := by linarith
    have has0 : as.sum = 0 := by linarith
    intro x hx
    rcases List.mem_cons.mp hx with hx | hx
    · exact hx.trans ha0
    · exact ih (fun y hy => hn y (List.mem_cons_of_mem _ hy)) has0 x hx

theorem getD_mem {α : Type} (l : List α) (i : ℕ) (d : α) (h : i < l.length) :
    l.getD i d ∈ l := by
  rw [List.getD_eq_getElem _ _ h]
  exact List.getElem_mem _

theorem rollWindow_self_mem {v : List ℝ} {i : ℕ} (h29 : ¬ i + 1 < 30)
    (hi : i < v.length) : v.getD i 0 ∈ rollWindow v 30 i := by
  have hk : i + 1 - 30 + 29 = i := by omega
  have hdlen : 29 < (v.drop (i + 1 - 30)).length := by
    rw [List.length_drop]
    omega
  have hlen : 29 < (rollWindow v 30 i).length := by
    simp only [rollWindow, List.length_take]
    omega
  have h1 : (rollWindow v 30 i).getD 29 0 = v.getD i 0 := by
    rw [List.getD_eq_getElem _ _ hlen]
    simp only [rollWindow]
    rw [List.getElem_take]
    rw [List.getElem_drop]
    rw [List.getD_eq_getElem v 0 hi]
    congr 1
  rw [← h1]
  exact getD_mem _ _ _ hlen

theorem mem_detect_anomalies {df : List (ℤ × ℝ)} {t : ℝ} {r : AnomalyRecord}
    (hr : r ∈ detect_anomalies df t) :
    ∃ i, i < (aggregate df).length ∧ 29 ≤ i ∧
      r.date = ((aggregate df).getD i ((0:ℤ), (0:ℝ))).1 ∧
      (zscoreAt ((aggregate df).map Prod.snd) i).rgt t := by
  rcases List.mem_filterMap.mp hr with ⟨i, hi, hf⟩
  have hlen := List.mem_range.mp hi
  by_cases hflag : (zscoreAt ((aggregate df).map Prod.snd) i).rgt t
  · have h29 : 29 ≤ i := by
      by_contra h29
      push_neg at h29
      rw [zscoreAt_nan_of_lt (by omega)] at hflag
      exact hflag
    refine ⟨i, hlen, h29, ?_, hflag⟩
    rw [if_pos hflag] at hf
    have := Option.some.inj hf
    rw [← this]
  · rw [if_neg hflag] at hf
    exact Option.noConfusion hf

theorem aggregate_date_injective {df : List (ℤ × ℝ)} {i j : ℕ}
    (hi : i < (aggregate df).length) (hj : j < (aggregate df).length)
    (heq : ((aggregate df).getD i ((0:ℤ), (0:ℝ))).1
         = ((aggregate df).getD j ((0:ℤ), (0:ℝ))).1) : i = j := by
  have hp := pairwise_aggregate_dates df
  rw [List.pairwise_iff_getElem] at hp
  rw [List.getD_eq_getElem _ _ hi, List.getD_eq_getElem _ _ hj] at heq
  by_contra hne
  have hmaplen : ((aggregate df).map Prod.fst).length = (aggregate df).length :=
    List.length_map _ _
  rcases Nat.lt_or_ge i j with hlt | hge
  · have := hp i j (by omega) (by omega) hlt
    rw [List.getElem_map, List.getElem_map] at this
    omega
  · have hlt : j < i := by omega
    have := hp j i (by omega) (by omega) hlt
    rw [List.getElem_map, List.getElem_map] at this
    omega

/-- C8: a day whose rolling 30-day standard deviation is zero or undefined is
never included in the anomaly list: an undefined standard deviation gives a
NaN z-score, and a zero standard deviation forces the day's quantity to equal
the window mean, so the z-score is NaN (0/0), never an infinite deviation
that would be flagged. -/
theorem detect_anomalies_zero_std (df : List (ℤ × ℝ)) (t : ℝ) (i : ℕ)
    (hi : i < (aggregate df).length)
    (hstd : rollingStd30 ((aggregate df).map Prod.snd) i = none ∨
            rollingStd30 ((aggregate df).map Prod.snd) i = some 0) :
    ((aggregate df).getD i ((0:ℤ), (0:ℝ))).1
      ∉ (detect_anomalies df t).map AnomalyRecord.date := by
  intro hmem
  rcases List.mem_map.mp hmem with ⟨r, hr, hrd⟩
  rcases mem_detect_anomalies hr with ⟨j, hj, h29j, hdate, hflag⟩
  have hij : i = j := aggregate_date_injective hi hj (by rw [← hrd, hdate])
  subst hij
  set v := (aggregate df).map Prod.snd with hv
  have hvi : i < v.length := by
    rw [hv, List.length_map]
    exact hi
  rcases hstd with hstd | hstd
  · have h30 : i + 1 < 30 := by
      by_contra hge
      unfold rollingStd30 at hstd
      rw [if_neg hge] at hstd
      exact Option.noConfusion hstd
    rw [zscoreAt_nan_of_lt h30] at hflag
    exact hflag
  · have hge : ¬ i + 1 < 30 := by
      intro hlt
      unfold rollingStd30 at hstd
      rw [if_pos hlt] at hstd
      exact Option.noConfusion hstd
    unfold rollingStd30 at hstd
    rw [if_neg hge] at hstd
    have hs0 : Real.sqrt ((((rollWindow v 30 i).map
        fun x => (x - (rollWindow v 30 i).sum / 30) ^ 2).sum) / 29) = 0 :=
      Option.some.inj hstd
    have hSnn : ∀ x ∈ (rollWindow v 30 i).map
        (fun x => (x - (rollWindow v 30 i).sum / 30) ^ 2), 0 ≤ x := by
      intro x hx
      rcases List.mem_map.mp hx with ⟨y, _, hy⟩
      rw [← hy]
      positivity
    have hsumnn : 0 ≤ ((rollWindow v 30 i).map
        (fun x => (x - (rollWindow v 30 i).sum / 30) ^ 2)).sum :=
      List.sum_nonneg hSnn
    have hle : (((rollWindow v 30 i).map
        (fun x => (x - (rollWindow v 30 i).sum / 30) ^ 2)).sum) / 29 ≤ 0 :=
      Real.sqrt_eq_zero'.mp hs0
    have hsum0 : (((rollWindow v 30 i).map
        (fun x => (x - (rollWindow v 30 i).sum / 30) ^ 2)).sum) = 0 := by
      nlinarith
    have hall := sum_nonneg_zero_mem hSnn hsum0
    have hmemw := rollWindow_self_mem hge hvi
    have hq0 : (v.getD i 0 - (rollWindow v 30 i).sum / 30) ^ 2 = 0 :=
      hall _ (List.mem_map_of_mem _ hmemw)
    have hdev : v.getD i 0 - (rollWindow v 30 i).sum / 30 = 0 := by
      nlinarith [sq_nonneg (v.getD i 0 - (rollWindow v 30 i).sum / 30)]
    have hz : zscoreAt v i = RFloat.nan := by
      unfold zscoreAt
      rw [if_neg hge]
      simp only
      rw [if_pos hs0, if_pos (by rw [hdev]; simp)]
    rw [hz] at hflag
    exact hflag

/-- Witness for C8 on a one-day series (rolling std undefined at row 0). -/
theorem detect_anomalies_zero_std_witness :
    (0 < (aggregate [((0:ℤ), (1:ℝ))]).length ∧
     rollingStd30 ((aggregate [((0:ℤ), (1:ℝ))]).map Prod.snd) 0 = none) ∧
    ((aggregate [((0:ℤ), (1:ℝ))]).getD 0 ((0:ℤ), (0:ℝ))).1
      ∉ (detect_anomalies [((0:ℤ), (1:ℝ))] 2.5).map AnomalyRecord.date := by
  have hagg : aggregate [((0:ℤ), (1:ℝ))] = [((0:ℤ), (1:ℝ))] :=
    aggregate_of_pairwise (by simp)
  have h1 : 0 < (aggregate [((0:ℤ), (1:ℝ))]).length := by rw [hagg]; simp
  have h2 : rollingStd30 ((aggregate [((0:ℤ), (1:ℝ))]).map Prod.snd) 0 = none := by
    unfold rollingStd30
    rw [if_pos (by omega)]
  exact ⟨⟨h1, h2⟩, detect_anomalies_zero_std [((0:ℤ), (1:ℝ))] 2.5 0 h1 (Or.inl h2)⟩

/-- C2 (amended): the rolling statistics are computed over the trailing
30-observation window *including* the current day, and no date among the
first 29 chronological observations of the daily series ever appears in the
anomaly list (the 30th observation is the first that can be flagged). -/
theorem detect_anomalies_skips_first29 (df : List (ℤ × ℝ)) (t : ℝ) :
    ∀ d ∈ ((aggregate df).take 29).map Prod.fst,
      d ∉ (detect_anomalies df t).map AnomalyRecord.date := by
  intro d hd hmem
  rcases List.mem_map.mp hd with ⟨p, hp, hpd⟩
  rcases List.mem_iff_getElem.mp hp with ⟨j, hjlen, hjp⟩
  have hjlen2 : j < (aggregate df).length := by
    have := hjlen
    rw [List.length_take] at this
    omega
  have hj29 : j < 29 := by
    have := hjlen
    rw [List.length_take] at this
    omega
  have hjval : (aggregate df).getD j ((0:ℤ), (0:ℝ)) = p := by
    rw [List.getD_eq_getElem _ _ hjlen2]
    rw [← hjp, List.getElem_take]
  rcases List.mem_map.mp hmem with ⟨r, hr, hrd⟩
  rcases mem_detect_anomalies hr with ⟨i, hi, h29i, hdate, _⟩
  have hkeyeq : ((aggregate df).getD j ((0:ℤ), (0:ℝ))).1
      = ((aggregate df).getD i ((0:ℤ), (0:ℝ))).1 := by
    rw [hjval, hpd, ← hrd, hdate]
  have := aggregate_date_injective hjlen2 hi hkeyeq
  omega

/-- Witness for the amended C2 on a one-day series. -/
theorem detect_anomalies_skips_first29_witness :
    ((0:ℤ) ∈ ((aggregate [((0:ℤ), (5:ℝ))]).take 29).map Prod.fst) ∧
    (0:ℤ) ∉ (detect_anomalies [((0:ℤ), (5:ℝ))] 2.5).map AnomalyRecord.date := by
  have hagg : aggregate [((0:ℤ), (5:ℝ))] = [((0:ℤ), (5:ℝ))] :=
    aggregate_of_pairwise (by simp)
  have hmem : (0:ℤ) ∈ ((aggregate [((0:ℤ), (5:ℝ))]).take 29).map Prod.fst := by
    rw [hagg]
    simp
  exact ⟨hmem, detect_anomalies_skips_first29 [((0:ℤ), (5:ℝ))] 2.5 0 hmem⟩

/-- The record that `detect_anomalies` appends for row `i` when it is
flagged. -/
def anomalyRecordAt (df : List (ℤ × ℝ)) (i : ℕ) : AnomalyRecord :=
  ⟨((aggregate df).getD i ((0:ℤ), (0:ℝ))).1,
   ((aggregate df).map Prod.snd).getD i 0,
   (rollingMean30 ((aggregate df).map Prod.snd) i).getD 0,
   ((aggregate df).map Prod.snd).getD i 0
     - (rollingMean30 ((aggregate df).map Prod.snd) i).getD 0,
   zscoreAt ((aggregate df).map Prod.snd) i,
   if (zscoreAt ((aggregate df).map Prod.snd) i).rgt 3 then Sev.high
     else Sev.medium⟩

theorem detect_anomalies_flag_mem {df : List (ℤ × ℝ)} {t : ℝ} {i : ℕ}
    (hi : i < (aggregate df).length)
    (hflag : (zscoreAt ((aggregate df).map Prod.snd) i).rgt t) :
    ((aggregate df).getD i ((0:ℤ), (0:ℝ))).1
      ∈ (detect_anomalies df t).map AnomalyRecord.date := by
  refine List.mem_map.mpr ⟨anomalyRecordAt df i, ?_, rfl⟩
  refine List.mem_filterMap.mpr ⟨i, List.mem_range.mpr hi, ?_⟩
  show (if (zscoreAt ((aggregate df).map Prod.snd) i).rgt t then
      some (anomalyRecordAt df i) else none) = some (anomalyRecordAt df i)
  rw [if_pos hflag]

/-- Series of 29 flat days at 50 units followed by a 10000-unit spike on the
30th day. -/
def spikeDf : List (ℤ × ℝ) :=
  ((List.range 29).map fun (i : ℕ) => ((i : ℤ), (50 : ℝ))) ++ [((29:ℤ), (10000:ℝ))]

theorem spikeDf_agg : aggregate spikeDf = spikeDf := by
  refine aggregate_of_pairwise ?_
  rw [spikeDf, List.map_append, List.map_map]
  rw [List.pairwise_append]
  refine ⟨?_, by simp, ?_⟩
  · rw [List.pairwise_map]
    exact (List.pairwise_lt_range 29).imp fun hij => by simpa using hij
  · intro x hx y hy
    rcases List.mem_map.mp hx with ⟨i, hi, hix⟩
    have hi29 : i < 29 := List.mem_range.mp hi
    have hx2 : x = (i : ℤ) := by rw [← hix]; rfl
    have hy2 : y = (29 : ℤ) := by simpa using hy
    rw [hx2, hy2]
    exact_mod_cast hi29

theorem spikeDf_values :
    (aggregate spikeDf).map Prod.snd = List.replicate 29 (50:ℝ) ++ [(10000:ℝ)] := by
  rw [spikeDf_agg, spikeDf, List.map_append, List.map_map]
  have hc : (Prod.snd ∘ fun i : ℕ => ((i : ℤ), (50:ℝ))) = fun _ : ℕ => (50:ℝ) := rfl
  rw [hc, List.map_const', List.length_range]
  rfl

/-- C2 counterexample: with the spike series, the 30th chronological
observation (date 29) appears in the anomaly list under the default
threshold 2.5, because the trailing rolling window includes the current
observation and is first defined exactly there. -/
theorem detect_anomalies_flags_30th_cex :
    (29:ℤ) ∈ (detect_anomalies spikeDf 2.5).map AnomalyRecord.date := by
  have hlen : (aggregate spikeDf).length = 30 := by
    rw [spikeDf_agg, spikeDf]
    simp
  set v : List ℝ := (aggregate spikeDf).map Prod.snd with hvdef
  have hv : v = List.replicate 29 (50:ℝ) ++ [(10000:ℝ)] := spikeDf_values
  have hvlen : v.length = 30 := by rw [hv]; simp
  have hW : rollWindow v 30 29 = v := by
    rw [rollWindow]
    norm_num
    exact le_of_eq hvlen
  have hsum : v.sum = 11450 := by
    rw [hv, List.sum_append, List.sum_replicate, nsmul_eq_mul]
    norm_num
  have hq : v.getD 29 0 = 10000 := by
    rw [hv]
    rw [List.getD_eq_getElem _ 0 (by simp)]
    rw [List.getElem_append_right (by simp)]
    simp
  have hsq : (v.map fun x => (x - v.sum / 30) ^ 2).sum
      = 29 * (50 - 11450/30) ^ 2 + (10000 - 11450/30) ^ 2 := by
    rw [hsum, hv, List.map_append, List.map_replicate]
    rw [List.sum_append, List.sum_replicate, nsmul_eq_mul]
    norm_num
  have hXpos : 0 < ((v.map fun x => (x - v.sum / 30) ^ 2).sum) / 29 := by
    rw [hsq]
    norm_num
  have hsne : Real.sqrt (((v.map fun x => (x - v.sum / 30) ^ 2).sum) / 29) ≠ 0 :=
    Real.sqrt_ne_zero'.mpr hXpos
  have hz : zscoreAt v 29
      = RFloat.val (|v.getD 29 0 - v.sum / 30|
          / Real.sqrt (((v.map fun x => (x - v.sum / 30) ^ 2).sum) / 29)) := by
    unfold zscoreAt
    rw [if_neg (by omega)]
    simp only [hW]
    rw [if_neg hsne]
  have hdevpos : (0:ℝ) < 10000 - 11450/30 := by norm_num
  have habs : |v.getD 29 0 - v.sum / 30| = 10000 - 11450/30 := by
    rw [hq, hsum]
    exact abs_of_pos hdevpos
  have hsqrtlt : Real.sqrt (((v.map fun x => (x - v.sum / 30) ^ 2).sum) / 29)
      < (10000 - 11450/30) / 2.5 := by
    rw [Real.sqrt_lt' (by norm_num)]
    rw [hsq]
    norm_num
  have hflag : (zscoreAt v 29).rgt 2.5 := by
    rw [hz]
    show (2.5:ℝ) < _
    rw [habs, hq, hsum]  at *
    rw [lt_div_iff₀ (Real.sqrt_pos.mpr hXpos)]
    linarith
  have hdate29 : ((aggregate spikeDf).getD 29 ((0:ℤ), (0:ℝ))).1 = 29 := by
    rw [spikeDf_agg, spikeDf]
    rw [List.getD_eq_getElem _ _ (by simp)]
    rw [List.getElem_append_right (by simp)]
    simp
  have h := detect_anomalies_flag_mem (t := 2.5) (by omega : 29 < (aggregate spikeDf).length) hflag
  rw [hdate29] at h
  exact h

/-- One forecast dictionary produced by `forecast_demand`. -/
structure FPoint where
  date : ℤ
  predicted_quantity : ℝ
  confidence_interval_lower : ℝ
  confidence_interval_upper : ℝ

/-- Python `max` over a list of floats (total on a nonempty list; the code
only calls it on nonempty forecast lists). -/
def pymax : List ℝ → ℝ
  | [] => 0
  | x :: xs => xs.foldl max x

/-- Python `min` over a list of floats. -/
def pymin : List ℝ → ℝ
  | [] => 0
  | x :: xs => xs.foldl min x

inductive RecType where
  | high_demand_alert : RecType
  | low_demand_alert : RecType
  | inventory_optimization : RecType
deriving DecidableEq

inductive RecSeverity where
  | info : RecSeverity
  | medium : RecSeverity
  | high : RecSeverity
deriving DecidableEq

/-- One recommendation dictionary.  The numeric quantities interpolated into
the `message`/`action` strings are kept as values. -/
structure Recommendation where
  rtype : RecType
  severity : RecSeverity
  message_value : Option ℝ
  action_value : Option ℝ
  priority : ℕ

/-- Model of `DemandForecaster.generate_recommendations`: a demand-spike
alert (priority 1) when the maximum forecast exceeds 1.5 times the mean, a
low-demand alert (priority 2) when the minimum forecast is below 0.5 times
the mean, and always the inventory recommendation (priority 3). -/
def generate_recommendations (forecasts : List FPoint) (inv : InvParams) :
    List Recommendation :=
  let qs := forecasts.map FPoint.predicted_quantity
  let avg := listMean qs
  let mx := pymax qs
  let r1 : List Recommendation :=
    if avg * 1.5 < mx then
      [⟨RecType.high_demand_alert, RecSeverity.high,
        some ((mx - avg) / avg * 100), none, 1⟩]
    else []
  let mn := pymin qs
  let r2 : List Recommendation :=
    if mn < avg * 0.5 then
      [⟨RecType.low_demand_alert, RecSeverity.medium, none, none, 2⟩]
    else []
  r1 ++ r2 ++ [⟨RecType.inventory_optimization, RecSeverity.info,
      inv.reorder_point, inv.safety_stock, 3⟩]

/-- Emission counts and ordering claimed for the Recommendation Generator. -/
def RecomProp (forecasts : List FPoint) (inv : InvParams) : Prop :=
  ((generate_recommendations forecasts inv).filter fun r => r.priority = 3).length = 1 ∧
  ((generate_recommendations forecasts inv).filter fun r => r.priority = 1).length
    = (if listMean (forecasts.map FPoint.predicted_quantity) * 1.5
          < pymax (forecasts.map FPoint.predicted_quantity) then 1 else 0) ∧
  ((generate_recommendations forecasts inv).filter fun r => r.priority = 2).length
    = (if pymin (forecasts.map FPoint.predicted_quantity)
          < listMean (forecasts.map FPoint.predicted_quantity) * 0.5 then 1 else 0) ∧
  ((generate_recommendations forecasts inv).map Recommendation.priority).Pairwise (· ≤ ·)

/-- C9: for every non-empty forecast list the Recommendation Generator emits
the priority-3 inventory recommendation exactly once, emits the priority-1
spike alert exactly when max > 1.5 · mean, emits the priority-2 low-demand
alert exactly when min < 0.5 · mean (independently, at most once each), and
the returned list is ordered by ascending priority. -/
theorem generate_recommendations_spec (forecasts : List FPoint) (inv : InvParams)
    (hne : forecasts ≠ []) : RecomProp forecasts inv := by
  have hne2 := hne
  unfold RecomProp generate_recommendations
  by_cases h1 : listMean (forecasts.map FPoint.predicted_quantity) * 1.5
      < pymax (forecasts.map FPoint.predicted_quantity) <;>
  by_cases h2 : pymin (forecasts.map FPoint.predicted_quantity)
      < listMean (forecasts.map FPoint.predicted_quantity) * 0.5 <;>
  simp [h1, h2, List.filter, List.Pairwise]

/-- Witness for C9 on a single forecast point. -/
theorem generate_recommendations_spec_witness :
    ([(⟨0, 10, 8, 12⟩ : FPoint)] ≠ []) ∧
    RecomProp [(⟨0, 10, 8, 12⟩ : FPoint)]
      ⟨0, none, none, none, 0, 7, 0.95⟩ := by
  refine ⟨by simp, generate_recommendations_spec _ _ (by simp)⟩

/-- One row of the feature frame built by `create_features`: lag and rolling
columns can be NaN before the fill, hence `Option ℝ`. -/
structure Row where
  date : ℤ
  quantity : Option ℝ
  totalRevenue : Option ℝ
  quantity_lag1 : Option ℝ
  quantity_lag7 : Option ℝ
  quantity_lag30 : Option ℝ
  quantity_rolling_mean_7 : Option ℝ
  quantity_rolling_std_7 : Option ℝ
  quantity_rolling_mean_30 : Option ℝ
  day_of_week : Option ℝ
  month : Option ℝ
  quarter : Option ℝ

/-- Model of the `groupby('date').agg({'quantity': 'sum', 'totalRevenue':
'sum'})` step of `create_features`. -/
def aggregate2 (df : List (ℤ × ℝ × ℝ)) : List (ℤ × ℝ × ℝ) :=
  (sortedKeys (df.map Prod.fst)).map fun d =>
    (d, ((df.filter fun r => r.1 = d).map fun r => r.2.1).sum,
        ((df.filter fun r => r.1 = d).map fun r => r.2.2).sum)

/-- The `series.shift(k)` column: row `i` holds the value from row `i - k`,
NaN (`none`) for the first `k` rows. -/
def lagCol (q : List ℝ) (k : ℕ) : List (Option ℝ) :=
  (List.range q.length).map fun i => if i < k then none else q[i - k]?

/-- The `series.rolling(window=w).mean()` column. -/
def rollMeanCol (q : List ℝ) (w : ℕ) : List (Option ℝ) :=
  (List.range q.length).map fun i =>
    if i + 1 < w then none else some ((rollWindow q w i).sum / (w : ℝ))

/-- The `series.rolling(window=w).std()` column (`ddof = 1`). -/
def rollStdCol (q : List ℝ) (w : ℕ) : List (Option ℝ) :=
  (List.range q.length).map fun i =>
    if i + 1 < w then none
    else some (Real.sqrt ((((rollWindow q w i).map
        fun x => (x - (rollWindow q w i).sum / (w : ℝ)) ^ 2).sum) / ((w : ℝ) - 1)))

/-- The `fillna(method='bfill')` column transform: each NaN cell takes the
value of the nearest later defined cell, if any. -/
def bfillCol (col : List (Option ℝ)) : List (Option ℝ) :=
  (List.range col.length).map fun i => ((col.drop i).filterMap id).head?

/-- The `fillna(method='ffill')` column transform: each NaN cell takes the
value of the nearest earlier defined cell, if any. -/
def ffillCol (col : List (Option ℝ)) : List (Option ℝ) :=
  (List.range col.length).map fun i => ((col.take (i + 1)).filterMap id).getLast?

/-- The fill applied by `create_features`: back-fill first, then
forward-fill. -/
def fillCol (col : List (Option ℝ)) : List (Option ℝ) := ffillCol (bfillCol col)

theorem getD_range_map {α : Type} (f : ℕ → α) (n i : ℕ) (d : α) (h : i < n) :
    ((List.range n).map f).getD i d = f i := by
  rw [List.getD_eq_getElem _ _ (by simpa using h), List.getElem_map]
  congr 1
  exact List.getElem_range i _

theorem length_bfillCol (col : List (Option ℝ)) : (bfillCol col).length = col.length := by
  simp [bfillCol]

theorem length_fillCol (col : List (Option ℝ)) : (fillCol col).length = col.length := by
  simp [fillCol, ffillCol, bfillCol]

theorem bfillCol_head_isSome {col : List (Option ℝ)} (h : ∃ x ∈ col, x.isSome)
    (hlen : 0 < col.length) : ((bfillCol col).getD 0 none).isSome := by
  rw [bfillCol, getD_range_map _ _ _ _ hlen, List.drop_zero]
  rcases h with ⟨x, hx, hxs⟩
  have hne : col.filterMap id ≠ [] := by
    intro hnil
    rw [List.filterMap_eq_nil_iff] at hnil
    have hx0 : x = none := hnil x hx
    rw [hx0] at hxs
    exact Bool.noConfusion hxs
  exact List.head?_isSome.mpr hne

theorem fillCol_all_some {col : List (Option ℝ)} (h : ∃ x ∈ col, x.isSome) :
    ∀ i, i < col.length → ((fillCol col).getD i none).isSome := by
  intro i hi
  have hblen : (bfillCol col).length = col.length := length_bfillCol col
  rw [fillCol, ffillCol, getD_range_map _ _ _ _ (by rw [hblen]; exact hi)]
  have hlen0 : 0 < col.length := lt_of_le_of_lt (Nat.zero_le _) hi
  have hhead := bfillCol_head_isSome h hlen0
  have h0 : 0 < ((bfillCol col).take (i + 1)).length := by
    rw [List.length_take]
    omega
  have hmem : (bfillCol col).getD 0 none ∈ (bfillCol col).take (i + 1) := by
    have hgt : ((bfillCol col).take (i + 1)).getD 0 none = (bfillCol col).getD 0 none := by
      rw [List.getD_eq_getElem _ _ h0, List.getElem_take,
        List.getD_eq_getElem _ _ (by omega)]
    rw [← hgt]
    exact getD_mem _ _ _ h0
  have hne : ((bfillCol col).take (i + 1)).filterMap id ≠ [] := by
    intro hnil
    rw [List.filterMap_eq_nil_iff] at hnil
    have hh0 : (bfillCol col).getD 0 none = none := hnil _ hmem
    rw [hh0] at hhead
    exact Bool.noConfusion hhead
  exact List.getLast?_isSome.mpr hne

theorem fillCol_all_none {col : List (Option ℝ)} (h : ∀ x ∈ col, x = none) :
    ∀ x ∈ fillCol col, x = none := by
  intro x hx
  rw [fillCol, ffillCol] at hx
  rcases List.mem_map.mp hx with ⟨i, _, hix⟩
  rw [← hix]
  have hb : ∀ y ∈ bfillCol col, y = none := by
    intro y hy
    rcases List.mem_map.mp hy with ⟨j, _, hjy⟩
    rw [← hjy]
    have hj : (col.drop j).filterMap id = [] := by
      rw [List.filterMap_eq_nil_iff]
      intro a ha
      rw [h a (List.mem_of_mem_drop ha)]
      rfl
    rw [hj]
    rfl
  have ht : ((bfillCol col).take (i + 1)).filterMap id = [] := by
    rw [List.filterMap_eq_nil_iff]
    intro a ha
    rw [hb a (List.mem_of_mem_take ha)]
    rfl
  rw [ht]
  rfl

/-- Daily total quantities of the aggregated series, the column from which
all lag/rolling features are derived. -/
def dailyQuantities (df : List (ℤ × ℝ × ℝ)) : List ℝ :=
  (aggregate2 df).map fun r => r.2.1

/-- Model of `DemandForecaster.create_features`: aggregate the raw records
into a daily series, attach lag-1/7/30 and rolling 7/30 statistics of the
daily quantity plus calendar features of the date, then resolve NaN cells by
back-filling and forward-filling each column.  The calendar functions
`dw`/`mo`/`qu` stand for `dt.dayofweek`, `dt.month` and `dt.quarter`. -/
def create_features (dw mo qu : ℤ → ℝ) (df : List (ℤ × ℝ × ℝ)) : List Row :=
  let agg := aggregate2 df
  let q : List ℝ := dailyQuantities df
  let lag1 := fillCol (lagCol q 1)
  let lag7 := fillCol (lagCol q 7)
  let lag30 := fillCol (lagCol q 30)
  let rm7 := fillCol (rollMeanCol q 7)
  let rs7 := fillCol (rollStdCol q 7)
  let rm30 := fillCol (rollMeanCol q 30)
  (List.range agg.length).map fun i =>
    { date := (agg.getD i ((0:ℤ), (0:ℝ), (0:ℝ))).1
      quantity := some (q.getD i 0)
      totalRevenue := some ((agg.getD i ((0:ℤ), (0:ℝ), (0:ℝ))).2.2)
      quantity_lag1 := lag1.getD i none
      quantity_lag7 := lag7.getD i none
      quantity_lag30 := lag30.getD i none
      quantity_rolling_mean_7 := rm7.getD i none
      quantity_rolling_std_7 := rs7.getD i none
      quantity_rolling_mean_30 := rm30.getD i none
      day_of_week := some (dw (agg.getD i ((0:ℤ), (0:ℝ), (0:ℝ))).1)
      month := some (mo (agg.getD i ((0:ℤ), (0:ℝ), (0:ℝ))).1)
      quarter := some (qu (agg.getD i ((0:ℤ), (0:ℝ), (0:ℝ))).1) }

theorem lagCol_has_some {q : List ℝ} {k : ℕ} (hk : k < q.length) :
    ∃ x ∈ lagCol q k, x.isSome := by
  refine ⟨(lagCol q k).getD k none, getD_mem _ _ _ (by simp [lagCol]; omega), ?_⟩
  rw [lagCol, getD_range_map _ _ _ _ hk]
  rw [if_neg (by omega)]
  have h0 : k - k < q.length := by omega
  rw [List.getElem?_eq_getElem h0]
  rfl

theorem rollMeanCol_has_some {q : List ℝ} {w : ℕ} (hw : 0 < w) (hk : w - 1 < q.length) :
    ∃ x ∈ rollMeanCol q w, x.isSome := by
  refine ⟨(rollMeanCol q w).getD (w - 1) none,
    getD_mem _ _ _ (by simp [rollMeanCol]; omega), ?_⟩
  rw [rollMeanCol, getD_range_map _ _ _ _ hk]
  rw [if_neg (by omega)]
  rfl

theorem rollStdCol_has_some {q : List ℝ} {w : ℕ} (hw : 0 < w) (hk : w - 1 < q.length) :
    ∃ x ∈ rollStdCol q w, x.isSome := by
  refine ⟨(rollStdCol q w).getD (w - 1) none,
    getD_mem _ _ _ (by simp [rollStdCol]; omega), ?_⟩
  rw [rollStdCol, getD_range_map _ _ _ _ hk]
  rw [if_neg (by omega)]
  rfl

theorem length_dailyQuantities (df : List (ℤ × ℝ × ℝ)) :
    (dailyQuantities df).length = (aggregate2 df).length := by
  rw [dailyQuantities, List.length_map]

set_option maxHeartbeats 1600000 in
/-- C5 (amended): undefined lag/rolling cells are resolved by back-filling
then forward-filling wherever the column has any defined cell; a daily series
with at least 31 distinct dates yields a feature frame with no undefined
feature values; an input with fewer than 2 distinct dates leaves the
lag-30/rolling-30 columns entirely undefined even after the fill, because the
whole column is NaN and there is no value to fill from. -/
theorem create_features_fill (dw mo qu : ℤ → ℝ) (df : List (ℤ × ℝ × ℝ)) :
    (31 ≤ (aggregate2 df).length →
      ∀ r ∈ create_features dw mo qu df,
        r.quantity_lag1.isSome ∧ r.quantity_lag7.isSome ∧ r.quantity_lag30.isSome ∧
        r.quantity_rolling_mean_7.isSome ∧ r.quantity_rolling_std_7.isSome ∧
        r.quantity_rolling_mean_30.isSome) ∧
    ((aggregate2 df).length ≤ 1 →
      ∀ r ∈ create_features dw mo qu df,
        r.quantity_lag30 = none ∧ r.quantity_rolling_mean_30 = none) := by
  have hqlen : (dailyQuantities df).length = (aggregate2 df).length :=
    length_dailyQuantities df
  constructor
  · intro h31 r hr
    rcases List.mem_map.mp hr with ⟨i, hi, hir⟩
    have hin : i < (aggregate2 df).length := List.mem_range.mp hi
    subst hir
    refine ⟨?_, ?_, ?_, ?_, ?_, ?_⟩
    · show ((fillCol (lagCol (dailyQuantities df) 1)).getD i none).isSome
      exact fillCol_all_some (lagCol_has_some (by omega)) i (by simp [lagCol]; omega)
    · show ((fillCol (lagCol (dailyQuantities df) 7)).getD i none).isSome
      exact fillCol_all_some (lagCol_has_some (by omega)) i (by simp [lagCol]; omega)
    · show ((fillCol (lagCol (dailyQuantities df) 30)).getD i none).isSome
      exact fillCol_all_some (lagCol_has_some (by omega)) i (by simp [lagCol]; omega)
    · show ((fillCol (rollMeanCol (dailyQuantities df) 7)).getD i none).isSome
      exact fillCol_all_some (rollMeanCol_has_some (by omega) (by omega)) i
        (by simp [rollMeanCol]; omega)
    · show ((fillCol (rollStdCol (dailyQuantities df) 7)).getD i none).isSome
      exact fillCol_all_some (rollStdCol_has_some (by omega) (by omega)) i
        (by simp [rollStdCol]; omega)
    · show ((fillCol (rollMeanCol (dailyQuantities df) 30)).getD i none).isSome
      exact fillCol_all_some (rollMeanCol_has_some (by omega) (by omega)) i
        (by simp [rollMeanCol]; omega)
  · intro h1 r hr
    rcases List.mem_map.mp hr with ⟨i, hi, hir⟩
    have hin : i < (aggregate2 df).length := List.mem_range.mp hi
    subst hir
    have hlag : ∀ x ∈ lagCol (dailyQuantities df) 30, x = none := by
      intro x hx
      rcases List.mem_map.mp hx with ⟨j, hj, hjx⟩
      have : j < (dailyQuantities df).length := List.mem_range.mp hj
      rw [← hjx, if_pos (by omega)]
    have hrm : ∀ x ∈ rollMeanCol (dailyQuantities df) 30, x = none := by
      intro x hx
      rcases List.mem_map.mp hx with ⟨j, hj, hjx⟩
      have : j < (dailyQuantities df).length := List.mem_range.mp hj
      rw [← hjx, if_pos (by omega)]
    constructor
    · show (fillCol (lagCol (dailyQuantities df) 30)).getD i none = none
      refine fillCol_all_none hlag _ (getD_mem _ _ _ ?_)
      rw [length_fillCol]
      simp [lagCol]
      omega
    · show (fillCol (rollMeanCol (dailyQuantities df) 30)).getD i none = none
      refine fillCol_all_none hrm _ (getD_mem _ _ _ ?_)
      rw [length_fillCol]
      simp [rollMeanCol]
      omega

/-- A raw series with a single distinct date. -/
def singleDayDf : List (ℤ × ℝ × ℝ) := [((5:ℤ), (42:ℝ), (0:ℝ))]

theorem singleDay_agg_len : (aggregate2 singleDayDf).length = 1 := by
  have hkeys : sortedKeys (singleDayDf.map Prod.fst) = [(5:ℤ)] := rfl
  rw [aggregate2, hkeys]
  rfl

theorem create_features_col_lag30 (dw mo qu : ℤ → ℝ) (df : List (ℤ × ℝ × ℝ)) :
    (create_features dw mo qu df).map Row.quantity_lag30
      = (List.range (aggregate2 df).length).map
          (fun i => (fillCol (lagCol (dailyQuantities df) 30)).getD i none) := by
  simp only [create_features]
  rw [List.map_map]
  exact List.map_congr_left fun i _ => rfl

theorem singleDay_lag30_getD :
    (fillCol (lagCol (dailyQuantities singleDayDf) 30)).getD 0 none = none := by
  have hqlen : (dailyQuantities singleDayDf).length = 1 := by
    rw [length_dailyQuantities, singleDay_agg_len]
  have hall : ∀ x ∈ lagCol (dailyQuantities singleDayDf) 30, x = none := by
    intro x hx
    rcases List.mem_map.mp hx with ⟨j, hj, hjx⟩
    have : j < (dailyQuantities singleDayDf).length := List.mem_range.mp hj
    rw [← hjx, if_pos (by omega)]
  refine fillCol_all_none hall _ (getD_mem _ _ _ ?_)
  rw [length_fillCol]
  simp [lagCol]
  omega

/-- C5 counterexample: on an input with a single distinct date the lag-30
column is entirely NaN, so after the back/forward fill it is still NaN —
it does not resolve to the single available quantity value 42. -/
theorem create_features_single_day_cex :
    ((create_features (fun _ => 0) (fun _ => 0) (fun _ => 0) singleDayDf).map
        Row.quantity_lag30) = [none] ∧
    ((create_features (fun _ => 0) (fun _ => 0) (fun _ => 0) singleDayDf).map
        Row.quantity_lag30) ≠ [some (42:ℝ)] := by
  have h1 : ((create_features (fun _ => 0) (fun _ => 0) (fun _ => 0) singleDayDf).map
      Row.quantity_lag30) = [none] := by
    have hr1 : List.range 1 = [0] := by decide
    rw [create_features_col_lag30, singleDay_agg_len, hr1, List.map_cons,
      List.map_nil, singleDay_lag30_getD]
  refine ⟨h1, ?_⟩
  rw [h1]
  simp

/-- Witness for the amended C5: the single-date input takes the
fewer-than-two-distinct-dates branch and its only row has NaN lag-30. -/
theorem create_features_fill_witness :
    ((aggregate2 singleDayDf).length ≤ 1) ∧
    ∀ r ∈ create_features (fun _ => 0) (fun _ => 0) (fun _ => 0) singleDayDf,
      r.quantity_lag30 = none ∧ r.quantity_rolling_mean_30 = none := by
  refine ⟨by rw [singleDay_agg_len], ?_⟩
  exact (create_features_fill (fun _ => 0) (fun _ => 0) (fun _ => 0) singleDayDf).2
    (by rw [singleDay_agg_len])

/-- Rows kept by `train_model`'s mask.  Since `X = df[feature_cols].fillna(0)`
replaces every undefined feature by 0 *before* the mask is computed,
`X.isna().any(axis=1)` is always false and the mask only removes rows whose
target (`quantity`) is undefined. -/
def usableRows (df : List Row) : List Row := df.filter fun r => r.quantity.isSome

/-- The nine-dimensional feature vector of a row, with NaN replaced by 0
(`fillna(0)`). -/
def featVecList (r : Row) : List ℝ :=
  [r.quantity_lag1.getD 0, r.quantity_lag7.getD 0, r.quantity_lag30.getD 0,
   r.quantity_rolling_mean_7.getD 0, r.quantity_rolling_std_7.getD 0,
   r.quantity_rolling_mean_30.getD 0, r.day_of_week.getD 0, r.month.getD 0,
   r.quarter.getD 0]

/-- Per-column mean of the training matrix (`StandardScaler.fit`). -/
def colMean (rows : List (List ℝ)) (j : ℕ) : ℝ := listMean (rows.map fun x => x.getD j 0)

/-- Per-column scale of `StandardScaler` (population standard deviation;
a zero scale is replaced by 1, as scikit-learn does). -/
def colScale (rows : List (List ℝ)) (j : ℕ) : ℝ :=
  let s := Real.sqrt (((rows.map fun x => (x.getD j 0 - colMean rows j) ^ 2).sum)
      / rows.length)
  if s = 0 then 1 else s

/-- `StandardScaler.transform` of one feature vector, with the statistics of
the training matrix `rows`. -/
def scaleRow (rows : List (List ℝ)) (x : List ℝ) : List ℝ :=
  (List.range 9).map fun j => (x.getD j 0 - colMean rows j) / colScale rows j

/-- Result of a successful `train_model` call: the fitted model, the
evaluation metrics, and the two halves of the chronological split. -/
structure TrainOutput where
  model : List ℝ → ℝ
  r2 : ℝ
  mae : ℝ
  rmse : ℝ
  train_rows : List Row
  test_rows : List Row

/-- The `ValueError("Insufficient data for model training")` raised by
`train_model`. -/
inductive TrainError where
  | insufficient_data : TrainError
deriving DecidableEq

/-- Model of `DemandForecaster.train_model`, parameterised by the opaque
regression fit (`GradientBoostingRegressor`/`RandomForestRegressor`):
zero-fill undefined features, drop rows with undefined target, require 100
usable rows, split chronologically at `int(len * 0.8)`, scale with the
training partition's statistics, fit, and score the held-out part. -/
def train_model (fit : List (List ℝ) → List ℝ → (List ℝ → ℝ)) (df : List Row) :
    Except TrainError TrainOutput :=
  let usable := usableRows df
  if usable.length < 100 then Except.error TrainError.insufficient_data
  else
    let train_size := usable.length * 4 / 5
    let tr := usable.take train_size
    let te := usable.drop train_size
    let Xtr := tr.map featVecList
    let ytr := tr.map fun r => r.quantity.getD 0
    let Xte := te.map featVecList
    let yte := te.map fun r => r.quantity.getD 0
    let XtrS := Xtr.map (scaleRow Xtr)
    let XteS := Xte.map (scaleRow Xtr)
    let model := fit XtrS ytr
    let preds := XteS.map model
    let ybar := listMean yte
    let ssres := ((yte.zip preds).map fun p => (p.1 - p.2) ^ 2).sum
    let sstot := (yte.map fun y => (y - ybar) ^ 2).sum
    Except.ok ⟨model, 1 - ssres / sstot,
      ((yte.zip preds).map fun p => |p.1 - p.2|).sum / yte.length,
      Real.sqrt (ssres / yte.length), tr, te⟩

/-- C4 (amended): the trainer raises the insufficient-data error exactly when
fewer than 100 rows with a *defined target* remain — undefined feature values
are zero-filled, not dropped — and in particular fewer than 100 total input
rows always raises it. -/
theorem train_model_insufficient (fit : List (List ℝ) → List ℝ → (List ℝ → ℝ))
    (df : List Row) :
    ((train_model fit df = Except.error TrainError.insufficient_data) ↔
      (usableRows df).length < 100) ∧
    (df.length < 100 → train_model fit df = Except.error TrainError.insufficient_data) := by
  constructor
  · constructor
    · intro h
      by_contra hge
      simp only [train_model] at h
      rw [if_neg hge] at h
      exact Except.noConfusion h
    · intro hlt
      simp only [train_model]
      rw [if_pos hlt]
  · intro hlen
    have hu : (usableRows df).length < 100 :=
      lt_of_le_of_lt (List.length_filter_le _ _) hlen
    simp only [train_model]
    rw [if_pos hu]

/-- Usable rows as the specification's words describe them: the rows that
remain after removing every row with *any* undefined feature or target
value. -/
def specUsableRows (df : List Row) : List Row :=
  df.filter fun r => r.quantity.isSome && r.quantity_lag1.isSome
    && r.quantity_lag7.isSome && r.quantity_lag30.isSome
    && r.quantity_rolling_mean_7.isSome && r.quantity_rolling_std_7.isSome
    && r.quantity_rolling_mean_30.isSome && r.day_of_week.isSome
    && r.month.isSome && r.quarter.isSome

/-- A row with every feature and the target defined. -/
def goodRow : Row :=
  ⟨0, some 1, some 1, some 1, some 1, some 1, some 1, some 1, some 1,
   some 1, some 1, some 1⟩

/-- A row with a defined target but an undefined lag-30 feature. -/
def badRow : Row :=
  ⟨0, some 1, some 1, some 1, some 1, none, some 1, some 1, some 1,
   some 1, some 1, some 1⟩

/-- 100 rows, one of which has an undefined feature value. -/
def cexDf : List Row := badRow :: List.replicate 99 goodRow

theorem filter_replicate_helper {α : Type} (n : ℕ) (a : α) (p : α → Bool) :
    (List.replicate n a).filter p = if p a then List.replicate n a else [] := by
  induction n with
  | zero => simp
  | succ n ih =>
    rw [List.replicate_succ, List.filter_cons, ih]
    cases hpa : p a <;> simp [hpa, List.replicate_succ]

/-- C4 counterexample: in the spec's sense only 99 of the 100 rows are usable
(one row has an undefined feature), so the claim predicts the
insufficient-data error, but the code zero-fills the feature, keeps all 100
rows and trains without error. -/
theorem train_model_cex :
    (specUsableRows cexDf).length < 100 ∧
    train_model (fun _ _ => fun _ => 0) cexDf
      ≠ Except.error TrainError.insufficient_data := by
  constructor
  · rw [specUsableRows, cexDf, List.filter_cons]
    have hbad : (badRow.quantity.isSome && badRow.quantity_lag1.isSome
        && badRow.quantity_lag7.isSome && badRow.quantity_lag30.isSome
        && badRow.quantity_rolling_mean_7.isSome && badRow.quantity_rolling_std_7.isSome
        && badRow.quantity_rolling_mean_30.isSome && badRow.day_of_week.isSome
        && badRow.month.isSome && badRow.quarter.isSome) = false := rfl
    rw [hbad]
    rw [filter_replicate_helper]
    have hgood : (goodRow.quantity.isSome && goodRow.quantity_lag1.isSome
        && goodRow.quantity_lag7.isSome && goodRow.quantity_lag30.isSome
        && goodRow.quantity_rolling_mean_7.isSome && goodRow.quantity_rolling_std_7.isSome
        && goodRow.quantity_rolling_mean_30.isSome && goodRow.day_of_week.isSome
        && goodRow.month.isSome && goodRow.quarter.isSome) = true := rfl
    rw [hgood]
    simp
  · intro h
    have husable : (usableRows cexDf).length = 100 := by
      rw [usableRows, cexDf, List.filter_cons]
      have hb : badRow.quantity.isSome = true := rfl
      rw [hb]
      rw [filter_replicate_helper]
      have hg : goodRow.quantity.isSome = true := rfl
      rw [hg]
      simp
    simp only [train_model] at h
    rw [if_neg (by omega)] at h
    exact Except.noConfusion h

/-- The split properties claimed for the Model Trainer. -/
def SplitProp (fit : List (List ℝ) → List ℝ → (List ℝ → ℝ)) (df : List Row) : Prop :=
  ∃ out, train_model fit df = Except.ok out ∧
    out.train_rows ++ out.test_rows = usableRows df ∧
    out.train_rows.length = (usableRows df).length * 4 / 5 ∧
    ∀ a ∈ out.train_rows, ∀ b ∈ out.test_rows, a.date < b.date

/-- C6: on a chronologically ordered feature sequence with at least 100
usable rows, the trainer succeeds and splits the usable rows into the first
`int(0.8 · n)` rows as training and the rest as evaluation, an
order-preserving, non-overlapping partition with every training date earlier
than every evaluation date. -/
theorem train_model_split (fit : List (List ℝ) → List ℝ → (List ℝ → ℝ)) (df : List Row)
    (hs : df.Pairwise fun a b => a.date < b.date)
    (h100 : 100 ≤ (usableRows df).length) : SplitProp fit df := by
  have hnot : ¬ (usableRows df).length < 100 := by omega
  rw [SplitProp]
  simp only [train_model]
  rw [if_neg hnot]
  refine ⟨_, rfl, List.take_append_drop _ _, ?_, ?_⟩
  · rw [List.length_take]
    have h1 : (usableRows df).length * 4 / 5 ≤ (usableRows df).length * 5 / 5 :=
      Nat.div_le_div_right (by omega)
    have h2 : (usableRows df).length * 5 / 5 = (usableRows df).length :=
      Nat.mul_div_cancel _ (by omega)
    omega
  · have hpu : (usableRows df).Pairwise fun a b => a.date < b.date :=
      List.Pairwise.sublist (List.filter_sublist df) hs
    have hsplit : ((usableRows df).take ((usableRows df).length * 4 / 5)
        ++ (usableRows df).drop ((usableRows df).length * 4 / 5)).Pairwise
          fun a b => a.date < b.date := by
      rw [List.take_append_drop]
      exact hpu
    exact (List.pairwise_append.mp hsplit).2.2

/-- A fully defined feature row at an integer date. -/
def rowAt (i : ℕ) : Row :=
  ⟨(i : ℤ), some 0, some 0, some 0, some 0, some 0, some 0, some 0, some 0,
   some 0, some 0, some 0⟩

/-- 100 chronologically ordered, fully defined feature rows. -/
def hundredDf : List Row := (List.range 100).map rowAt

theorem hundredDf_sorted : hundredDf.Pairwise fun a b => a.date < b.date := by
  rw [hundredDf, List.pairwise_map]
  refine (List.pairwise_lt_range 100).imp ?_
  intro i j hij
  show (i : ℤ) < (j : ℤ)
  exact_mod_cast hij

theorem hundredDf_usable : (usableRows hundredDf).length = 100 := by
  rw [usableRows]
  rw [List.filter_eq_self.mpr]
  · rw [hundredDf, List.length_map, List.length_range]
  · intro a ha
    rcases List.mem_map.mp ha with ⟨i, _, hia⟩
    rw [← hia]
    rfl

/-- Witness for C6 on 100 concrete rows. -/
theorem train_model_split_witness :
    (hundredDf.Pairwise fun a b => a.date < b.date) ∧
    100 ≤ (usableRows hundredDf).length ∧
    SplitProp (fun _ _ => fun _ => 0) hundredDf := by
  refine ⟨hundredDf_sorted, le_of_eq hundredDf_usable.symm,
    train_model_split _ _ hundredDf_sorted (le_of_eq hundredDf_usable.symm)⟩

/-- Mean of a pandas series that may hold NaN (`series.mean()`, skipna):
NaN values are skipped; the mean of no valid values is NaN. -/
def omean (cells : List (Option ℝ)) : Option ℝ :=
  let v := cells.filterMap id
  if v.length = 0 then none else some (v.sum / v.length)

/-- Sample standard deviation of a pandas series that may hold NaN
(`series.std()`, `ddof = 1`, skipna): NaN on fewer than two valid values. -/
def ostd (cells : List (Option ℝ)) : Option ℝ :=
  let v := cells.filterMap id
  if v.length < 2 then none
  else some (Real.sqrt (((v.map fun x => (x - v.sum / v.length) ^ 2).sum)
      / ((v.length : ℝ) - 1)))

/-- The last `n` rows of a frame (`df.tail(n)`). -/
def tailN {α : Type} (n : ℕ) (l : List α) : List α := l.drop (l.length - n)

/-- Positional indexing from the end (`series.iloc[-k]`). -/
def cellAtNeg (cells : List (Option ℝ)) (k : ℕ) : Option ℝ :=
  cells.getD (cells.length - k) none

/-- The nine-entry feature dictionary assembled by `forecast_demand` for the
next day.  Calendar entries are plain reals (never NaN). -/
structure FeatVec where
  quantity_lag1 : Option ℝ
  quantity_lag7 : Option ℝ
  quantity_lag30 : Option ℝ
  quantity_rolling_mean_7 : Option ℝ
  quantity_rolling_std_7 : Option ℝ
  quantity_rolling_mean_30 : Option ℝ
  day_of_week : ℝ
  month : ℝ
  quarter : ℝ

/-- The features `forecast_demand` derives from the current rolling window
for the next date `nd`: lag-1 is the last quantity, lag-7/lag-30 fall back to
the window mean when the window is shorter than 7/30, and the rolling
statistics are taken over the trailing 7 and 30 cells. -/
def forecastFeatures (dw mo qu : ℤ → ℝ) (win : List Row) (nd : ℤ) : FeatVec :=
  let cells := win.map Row.quantity
  { quantity_lag1 := cellAtNeg cells 1
    quantity_lag7 := if 7 ≤ win.length then cellAtNeg cells 7 else omean cells
    quantity_lag30 := if 30 ≤ win.length then cellAtNeg cells 30 else omean cells
    quantity_rolling_mean_7 := omean (tailN 7 cells)
    quantity_rolling_std_7 := ostd (tailN 7 cells)
    quantity_rolling_mean_30 := omean (tailN 30 cells)
    day_of_week := dw nd
    month := mo nd
    quarter := qu nd }

/-- `current_data['date'].max()` (total on nonempty frames, which is the only
way the code calls it). -/
def maxDate : List Row → ℤ
  | [] => 0
  | r :: rs => rs.foldl (fun m x => max m x.date) r.date

/-- The row appended to the rolling window for a predicted day: the predicted
quantity becomes the day's quantity, the feature entries are rewritten, and
the `totalRevenue` column — absent from the appended dictionary — becomes NaN
in the concatenated frame. -/
def newForecastRow (dw mo qu : ℤ → ℝ) (win : List Row) (nd : ℤ) (p : ℝ) : Row :=
  let fv := forecastFeatures dw mo qu win nd
  ⟨nd, some p, none, fv.quantity_lag1, fv.quantity_lag7, fv.quantity_lag30,
   fv.quantity_rolling_mean_7, fv.quantity_rolling_std_7,
   fv.quantity_rolling_mean_30, some (dw nd), some (mo nd), some (qu nd)⟩

/-- The recursive one-step-ahead loop of `forecast_demand`: predict the next
day from the window (scaler and model bundled in the opaque `predict`), clamp
at 0, emit the ±20% band, append the prediction to the window, repeat. -/
def forecastLoop (predict : FeatVec → ℝ) (dw mo qu : ℤ → ℝ) :
    List Row → ℕ → List FPoint
  | _, 0 => []
  | win, n + 1 =>
    let nd := maxDate win + 1
    let p := max 0 (predict (forecastFeatures dw mo qu win nd))
    ⟨nd, p, p * 0.8, p * 1.2⟩ ::
      forecastLoop predict dw mo qu (win ++ [newForecastRow dw mo qu win nd p]) n

/-- Model of `DemandForecaster.forecast_demand`: start from the last 30 rows
of the feature frame and run the recursive loop. -/
def forecast_demand (predict : FeatVec → ℝ) (dw mo qu : ℤ → ℝ)
    (df : List Row) (days_ahead : ℕ) : List FPoint :=
  forecastLoop predict dw mo qu (tailN 30 df) days_ahead

theorem newForecastRow_date (dw mo qu : ℤ → ℝ) (win : List Row) (nd : ℤ) (p : ℝ) :
    (newForecastRow dw mo qu win nd p).date = nd := rfl

theorem maxDate_append (win : List Row) (r : Row) (h : win ≠ []) :
    maxDate (win ++ [r]) = max (maxDate win) r.date := by
  cases win with
  | nil => exact absurd rfl h
  | cons a as =>
    show ((as ++ [r]).foldl (fun m x => max m x.date) a.date) = _
    rw [List.foldl_append]
    rfl

theorem forecastLoop_spec (predict : FeatVec → ℝ) (dw mo qu : ℤ → ℝ) :
    ∀ (n : ℕ) (win : List Row), win ≠ [] →
      (forecastLoop predict dw mo qu win n).length = n ∧
      ∀ i, i < n → ∃ p : ℝ, 0 ≤ p ∧
        (forecastLoop predict dw mo qu win n).getD i ⟨0, 0, 0, 0⟩
          = ⟨maxDate win + (i : ℤ) + 1, p, p * 0.8, p * 1.2⟩ := by
  intro n
  induction n with
  | zero =>
    intro win _
    exact ⟨rfl, fun i hi => absurd hi (by omega)⟩
  | succ n ih =>
    intro win hwin
    have hwin2 : win ++ [newForecastRow dw mo qu win (maxDate win + 1)
        (max 0 (predict (forecastFeatures dw mo qu win (maxDate win + 1))))] ≠ [] := by
      simp
    have hmax2 : maxDate (win ++ [newForecastRow dw mo qu win (maxDate win + 1)
        (max 0 (predict (forecastFeatures dw mo qu win (maxDate win + 1))))])
        = maxDate win + 1 := by
      rw [maxDate_append _ _ hwin, newForecastRow_date]
      exact max_eq_right (by omega)
    rcases ih _ hwin2 with ⟨ihlen, ihget⟩
    constructor
    · show _ = n + 1
      simp only [forecastLoop, List.length_cons]
      omega
    · intro i hi
      cases i with
      | zero =>
        refine ⟨max 0 (predict (forecastFeatures dw mo qu win (maxDate win + 1))),
          le_max_left _ _, ?_⟩
        show (forecastLoop predict dw mo qu win (n + 1)).getD 0 _ = _
        simp only [forecastLoop, List.getD_cons_zero]
        norm_num
      | succ i =>
        have hi2 : i < n := by omega
        rcases ihget i hi2 with ⟨p, hp0, hpe⟩
        refine ⟨p, hp0, ?_⟩
        show (forecastLoop predict dw mo qu win (n + 1)).getD (i + 1) _ = _
        simp only [forecastLoop, List.getD_cons_succ]
        rw [hpe, hmax2]
        congr 1
        push_cast
        ring

/-- Shape of the forecast output claimed for the Forecaster. -/
def ForecastProp (predict : FeatVec → ℝ) (dw mo qu : ℤ → ℝ) (df : List Row)
    (days_ahead : ℕ) (lastDate : ℤ) : Prop :=
  (forecast_demand predict dw mo qu df days_ahead).length = days_ahead ∧
  ∀ i, i < days_ahead → ∃ p : ℝ, 0 ≤ p ∧
    (forecast_demand predict dw mo qu df days_ahead).getD i ⟨0, 0, 0, 0⟩
      = ⟨lastDate + (i : ℤ) + 1, p, p * 0.8, p * 1.2⟩

theorem tailN_ne_nil {l : List Row} (h : l ≠ []) {n : ℕ} (hn : 0 < n) :
    tailN n l ≠ [] := by
  rw [tailN]
  intro hnil
  have hlen := congrArg List.length hnil
  rw [List.length_drop] at hlen
  have hlp : 0 < l.length := List.length_pos.mpr h
  simp at hlen
  omega

theorem getLast_eq_of_eq {l1 l2 : List Row} (he : l1 = l2) (h1 : l1 ≠ [])
    (h2 : l2 ≠ []) : l1.getLast h1 = l2.getLast h2 := by
  subst he
  rfl

theorem getLast_tailN {l : List Row} (h : l ≠ []) {n : ℕ} (hn : 0 < n) :
    (tailN n l).getLast (tailN_ne_nil h hn) = l.getLast h := by
  have hsplit : l.take (l.length - n) ++ tailN n l = l := List.take_append_drop _ _
  have h2 : l.take (l.length - n) ++ tailN n l ≠ [] := by
    rw [hsplit]
    exact h
  have hgl : (l.take (l.length - n) ++ tailN n l).getLast h2
      = (tailN n l).getLast (tailN_ne_nil h hn) :=
    List.getLast_append' _ _ _
  rw [← hgl]
  exact getLast_eq_of_eq hsplit h2 h

theorem maxDate_of_sorted (l : List Row) :
    ∀ (h : l ≠ []), (l.Pairwise fun a b => a.date ≤ b.date) →
      maxDate l = (l.getLast h).date := by
  induction l using List.reverseRecOn with
  | nil => intro h _; exact absurd rfl h
  | append_singleton xs x ih =>
    intro h hp
    by_cases hxs : xs = []
    · subst hxs
      rfl
    · have hne2 : xs ≠ [] := hxs
      rw [maxDate_append xs x hne2]
      rw [List.getLast_append' xs [x] (by simp)]
      have hmax : maxDate xs = (xs.getLast hne2).date :=
        ih hne2 (List.Pairwise.sublist (List.sublist_append_left xs [x]) hp)
      have hle : (xs.getLast hne2).date ≤ x.date := by
        have hmem : xs.getLast hne2 ∈ xs := List.getLast_mem hne2
        exact (List.pairwise_append.mp hp).2.2 _ hmem x (by simp)
      rw [hmax]
      show max (xs.getLast hne2).date x.date = x.date
      exact max_eq_right hle

/-- C1: for every trained model (opaque `predict`, bundling scaler and
regressor), every nonempty chronologically sorted feature frame and every
horizon, `forecast_demand` returns exactly `days_ahead` points on strictly
consecutive dates starting the day after the last input date, each with a
non-negative predicted quantity and bounds `0.8 ×` and `1.2 ×` the
prediction. -/
theorem forecast_demand_spec (predict : FeatVec → ℝ) (dw mo qu : ℤ → ℝ)
    (df : List Row) (n : ℕ) (hne : df ≠ [])
    (hs : df.Pairwise fun a b => a.date ≤ b.date) :
    ForecastProp predict dw mo qu df n ((df.getLast hne).date) := by
  have hwne : tailN 30 df ≠ [] := tailN_ne_nil hne (by omega)
  have hsorted : (tailN 30 df).Pairwise fun a b => a.date ≤ b.date := by
    rw [tailN]
    exact List.Pairwise.sublist (List.drop_sublist _ _) hs
  have hmax : maxDate (tailN 30 df) = (df.getLast hne).date := by
    rw [maxDate_of_sorted _ hwne hsorted]
    rw [getLast_tailN hne (by omega)]
  rcases forecastLoop_spec predict dw mo qu n (tailN 30 df) hwne with ⟨hlen, hget⟩
  refine ⟨hlen, ?_⟩
  intro i hi
  rcases hget i hi with ⟨p, hp0, hpe⟩
  refine ⟨p, hp0, ?_⟩
  show (forecastLoop predict dw mo qu (tailN 30 df) n).getD i _ = _
  rw [hpe, hmax]

/-- Witness for C1 on a one-row frame and a two-day horizon. -/
theorem forecast_demand_spec_witness :
    ([rowAt 3] ≠ []) ∧ (List.Pairwise (fun a b : Row => a.date ≤ b.date) [rowAt 3]) ∧
    ForecastProp (fun _ => 1) (fun _ => 0) (fun _ => 0) (fun _ => 0) [rowAt 3] 2
      (([rowAt 3].getLast (by simp)).date) := by
  refine ⟨by simp, List.pairwise_singleton _ _, ?_⟩
  exact forecast_demand_spec _ _ _ _ _ 2 (by simp) (List.pairwise_singleton _ _)

/-- A pandas frame on the heap (its list of rows). -/
abbrev HeapFrame := List Row

/-- Allocate a fresh frame on the heap (models `copy()`, `pd.DataFrame(...)`
and `pd.concat(...)`, each of which creates a new object): returns the new
heap and the reference to the fresh frame. -/
def heapAlloc (h : List HeapFrame) (v : HeapFrame) : List HeapFrame × ℕ :=
  (h ++ [v], h.length)

/-- Dereference a frame. -/
def heapRead (h : List HeapFrame) (r : ℕ) : HeapFrame := h.getD r []

theorem heapRead_alloc_same (h : List HeapFrame) (v : HeapFrame) :
    heapRead (heapAlloc h v).1 (heapAlloc h v).2 = v := by
  rw [heapAlloc, heapRead]
  show (h ++ [v]).getD h.length [] = v
  rw [List.getD_eq_getElem _ _ (by simp)]
  exact List.getElem_concat_length _ _ _ rfl _

theorem heapRead_alloc_old (h : List HeapFrame) (v : HeapFrame) {r : ℕ}
    (hr : r < h.length) : heapRead (heapAlloc h v).1 r = heapRead h r := by
  rw [heapAlloc, heapRead, heapRead]
  exact List.getD_append _ _ _ _ hr

/-- One iteration of the heap-level forecasting loop: read the current
window, build the forecast point, allocate the one-row frame of the predicted
day (`pd.DataFrame([{...}])`), then allocate the concatenated window
(`pd.concat`).  Returns the emitted point, the new heap, and the reference
`current_data` is rebound to. -/
def forecastStepH (predict : FeatVec → ℝ) (dw mo qu : ℤ → ℝ)
    (h : List HeapFrame) (winRef : ℕ) : FPoint × List HeapFrame × ℕ :=
  let win := heapRead h winRef
  let nd := maxDate win + 1
  let p := max 0 (predict (forecastFeatures dw mo qu win nd))
  let a1 := heapAlloc h [newForecastRow dw mo qu win nd p]
  let a2 := heapAlloc a1.1 (heapRead a1.1 winRef ++ heapRead a1.1 a1.2)
  (⟨nd, p, p * 0.8, p * 1.2⟩, a2.1, a2.2)

/-- The heap-level recursive forecasting loop. -/
def forecastLoopH (predict : FeatVec → ℝ) (dw mo qu : ℤ → ℝ) :
    List HeapFrame → ℕ → ℕ → List FPoint × List HeapFrame
  | h, _, 0 => ([], h)
  | h, winRef, n + 1 =>
    let s := forecastStepH predict dw mo qu h winRef
    let res := forecastLoopH predict dw mo qu s.2.1 s.2.2 n
    (s.1 :: res.1, res.2)

/-- Heap-level model of `forecast_demand`: read the input frame, allocate the
copy of its last 30 rows (`df.tail(30).copy()`), and run the loop on the
copy.  The input frame itself is never written. -/
def forecast_demand_heap (predict : FeatVec → ℝ) (dw mo qu : ℤ → ℝ)
    (h : List HeapFrame) (dfRef : ℕ) (days_ahead : ℕ) :
    List FPoint × List HeapFrame :=
  let df := heapRead h dfRef
  let a := heapAlloc h (tailN 30 df)
  forecastLoopH predict dw mo qu a.1 a.2 days_ahead

theorem forecastStepH_len (predict : FeatVec → ℝ) (dw mo qu : ℤ → ℝ)
    (h : List HeapFrame) (winRef : ℕ) :
    (forecastStepH predict dw mo qu h winRef).2.1.length = h.length + 2 := by
  simp [forecastStepH, heapAlloc]

theorem forecastStepH_old (predict : FeatVec → ℝ) (dw mo qu : ℤ → ℝ)
    (h : List HeapFrame) (winRef : ℕ) {r : ℕ} (hr : r < h.length) :
    (forecastStepH predict dw mo qu h winRef).2.1.getD r [] = h.getD r [] := by
  show ((heapAlloc (heapAlloc h _).1 _).1).getD r [] = h.getD r []
  rw [heapAlloc, heapAlloc]
  rw [List.getD_append _ _ _ _ (by simp; omega)]
  rw [List.getD_append _ _ _ _ hr]

theorem forecastStepH_ref_lt (predict : FeatVec → ℝ) (dw mo qu : ℤ → ℝ)
    (h : List HeapFrame) (winRef : ℕ) :
    (forecastStepH predict dw mo qu h winRef).2.2
      < (forecastStepH predict dw mo qu h winRef).2.1.length := by
  simp [forecastStepH, heapAlloc]

theorem forecastStepH_read (predict : FeatVec → ℝ) (dw mo qu : ℤ → ℝ)
    (h : List HeapFrame) (winRef : ℕ) (hwr : winRef < h.length) :
    heapRead (forecastStepH predict dw mo qu h winRef).2.1
        (forecastStepH predict dw mo qu h winRef).2.2
      = heapRead h winRef
        ++ [newForecastRow dw mo qu (heapRead h winRef)
            (maxDate (heapRead h winRef) + 1)
            (max 0 (predict (forecastFeatures dw mo qu (heapRead h winRef)
              (maxDate (heapRead h winRef) + 1))))] := by
  show heapRead (heapAlloc (heapAlloc h _).1 _).1 (heapAlloc (heapAlloc h _).1 _).2 = _
  rw [heapRead_alloc_same]
  rw [heapRead_alloc_old h _ hwr]
  rw [heapRead_alloc_same]

theorem forecastLoopH_preserves (predict : FeatVec → ℝ) (dw mo qu : ℤ → ℝ) :
    ∀ (n : ℕ) (h : List HeapFrame) (winRef : ℕ),
      h.length ≤ (forecastLoopH predict dw mo qu h winRef n).2.length ∧
      ∀ r, r < h.length →
        (forecastLoopH predict dw mo qu h winRef n).2.getD r [] = h.getD r [] := by
  intro n
  induction n with
  | zero => exact fun h winRef => ⟨le_refl _, fun r _ => rfl⟩
  | succ n ih =>
    intro h winRef
    rcases ih (forecastStepH predict dw mo qu h winRef).2.1
        (forecastStepH predict dw mo qu h winRef).2.2 with ⟨ihlen, ihget⟩
    have hsl := forecastStepH_len predict dw mo qu h winRef
    constructor
    · show h.length ≤ (forecastLoopH predict dw mo qu
          (forecastStepH predict dw mo qu h winRef).2.1
          (forecastStepH predict dw mo qu h winRef).2.2 n).2.length
      omega
    · intro r hr
      show (forecastLoopH predict dw mo qu
          (forecastStepH predict dw mo qu h winRef).2.1
          (forecastStepH predict dw mo qu h winRef).2.2 n).2.getD r [] = h.getD r []
      rw [ihget r (by omega)]
      exact forecastStepH_old predict dw mo qu h winRef hr

theorem forecastLoopH_fst (predict : FeatVec → ℝ) (dw mo qu : ℤ → ℝ) :
    ∀ (n : ℕ) (h : List HeapFrame) (winRef : ℕ), winRef < h.length →
      (forecastLoopH predict dw mo qu h winRef n).1
        = forecastLoop predict dw mo qu (heapRead h winRef) n := by
  intro n
  induction n with
  | zero => intro h winRef _; rfl
  | succ n ih =>
    intro h winRef hwr
    show (forecastStepH predict dw mo qu h winRef).1
        :: (forecastLoopH predict dw mo qu
              (forecastStepH predict dw mo qu h winRef).2.1
              (forecastStepH predict dw mo qu h winRef).2.2 n).1
      = forecastLoop predict dw mo qu (heapRead h winRef) (n + 1)
    rw [ih _ _ (forecastStepH_ref_lt predict dw mo qu h winRef)]
    rw [forecastStepH_read predict dw mo qu h winRef hwr]
    rfl

theorem forecast_demand_heap_eq (predict : FeatVec → ℝ) (dw mo qu : ℤ → ℝ)
    (h : List HeapFrame) (dfRef n : ℕ) :
    forecast_demand_heap predict dw mo qu h dfRef n
      = forecastLoopH predict dw mo qu
          (heapAlloc h (tailN 30 (heapRead h dfRef))).1
          (heapAlloc h (tailN 30 (heapRead h dfRef))).2 n := rfl

theorem forecast_demand_heap_fst (predict : FeatVec → ℝ) (dw mo qu : ℤ → ℝ)
    (h : List HeapFrame) (dfRef n : ℕ) :
    (forecast_demand_heap predict dw mo qu h dfRef n).1
      = forecast_demand predict dw mo qu (heapRead h dfRef) n := by
  rw [forecast_demand_heap_eq]
  rw [forecastLoopH_fst predict dw mo qu n _ _ (by rw [heapAlloc]; simp)]
  rw [heapRead_alloc_same]
  rfl

theorem forecast_demand_heap_preserves (predict : FeatVec → ℝ) (dw mo qu : ℤ → ℝ)
    (h : List HeapFrame) (dfRef n : ℕ) :
    h.length ≤ (forecast_demand_heap predict dw mo qu h dfRef n).2.length ∧
    ∀ r, r < h.length →
      (forecast_demand_heap predict dw mo qu h dfRef n).2.getD r [] = h.getD r [] := by
  rw [forecast_demand_heap_eq]
  rcases forecastLoopH_preserves predict dw mo qu n
      (heapAlloc h (tailN 30 (heapRead h dfRef))).1
      (heapAlloc h (tailN 30 (heapRead h dfRef))).2 with ⟨hlen, hget⟩
  constructor
  · refine le_trans ?_ hlen
    rw [heapAlloc]
    simp
  · intro r hr
    rw [hget r (by rw [heapAlloc]; simp; omega)]
    rw [heapAlloc]
    exact List.getD_append _ _ _ _ hr

/-- C10: the Forecaster never mutates its input frame — after
`forecast_demand` runs, every pre-existing frame on the heap (in particular
the historical frame at `dfRef`) is unchanged, the forecasts coincide with
the pure function of the input frame's value, and forecasting again from the
same reference reproduces the same output. -/
theorem forecast_demand_no_mutation (predict : FeatVec → ℝ) (dw mo qu : ℤ → ℝ)
    (h : List HeapFrame) (dfRef n : ℕ) (href : dfRef < h.length) :
    (∀ r, r < h.length →
      (forecast_demand_heap predict dw mo qu h dfRef n).2.getD r [] = h.getD r []) ∧
    ((forecast_demand_heap predict dw mo qu h dfRef n).1
      = forecast_demand predict dw mo qu (heapRead h dfRef) n) ∧
    ((forecast_demand_heap predict dw mo qu
        (forecast_demand_heap predict dw mo qu h dfRef n).2 dfRef n).1
      = (forecast_demand_heap predict dw mo qu h dfRef n).1) := by
  rcases forecast_demand_heap_preserves predict dw mo qu h dfRef n with ⟨hlen, hget⟩
  refine ⟨hget, forecast_demand_heap_fst predict dw mo qu h dfRef n, ?_⟩
  rw [forecast_demand_heap_fst predict dw mo qu _ dfRef n]
  rw [forecast_demand_heap_fst predict dw mo qu h dfRef n]
  have hsame : heapRead (forecast_demand_heap predict dw mo qu h dfRef n).2 dfRef
      = heapRead h dfRef := by
    rw [heapRead, heapRead]
    exact hget dfRef href
  rw [hsame]

/-- Witness for C10 on a one-frame heap. -/
theorem forecast_demand_no_mutation_witness :
    (0 < ([[rowAt 0]] : List HeapFrame).length) ∧
    ((∀ r, r < ([[rowAt 0]] : List HeapFrame).length →
      (forecast_demand_heap (fun _ => 1) (fun _ => 0) (fun _ => 0) (fun _ => 0)
          [[rowAt 0]] 0 1).2.getD r []
        = ([[rowAt 0]] : List HeapFrame).getD r []) ∧
    ((forecast_demand_heap (fun _ => 1) (fun _ => 0) (fun _ => 0) (fun _ => 0)
        [[rowAt 0]] 0 1).1
      = forecast_demand (fun _ => 1) (fun _ => 0) (fun _ => 0) (fun _ => 0)
          (heapRead [[rowAt 0]] 0) 1) ∧
    ((forecast_demand_heap (fun _ => 1) (fun _ => 0) (fun _ => 0) (fun _ => 0)
        (forecast_demand_heap (fun _ => 1) (fun _ => 0) (fun _ => 0) (fun _ => 0)
          [[rowAt 0]] 0 1).2 0 1).1
      = (forecast_demand_heap (fun _ => 1) (fun _ => 0) (fun _ => 0) (fun _ => 0)
          [[rowAt 0]] 0 1).1)) := by
  exact ⟨by simp,
    forecast_demand_no_mutation (fun _ => 1) (fun _ => 0) (fun _ => 0) (fun _ => 0)
      [[rowAt 0]] 0 1 (by simp)⟩

/-- Witness for the amended C4: the empty frame has fewer than 100 rows and
the trainer raises the insufficient-data error on it. -/
theorem train_model_insufficient_witness :
    (([] : List Row).length < 100) ∧
    train_model (fun _ _ => fun _ => 0) ([] : List Row)
      = Except.error TrainError.insufficient_data :=
  ⟨by simp, (train_model_insufficient (fun _ _ => fun _ => 0) []).2 (by simp)⟩

/-- Witness for the amended C7: a two-day constant series has zero sample
standard deviation and zero safety stock. -/
theorem optimize_inventory_zero_std_witness :
    ((optimize_inventory [((0:ℤ), (5:ℝ)), ((1:ℤ), (5:ℝ))] 1).demand_std = some 0) ∧
    (optimize_inventory [((0:ℤ), (5:ℝ)), ((1:ℤ), (5:ℝ))] 1).safety_stock = some 0 := by
  have hagg : aggregate [((0:ℤ), (5:ℝ)), ((1:ℤ), (5:ℝ))]
      = [((0:ℤ), (5:ℝ)), ((1:ℤ), (5:ℝ))] :=
    aggregate_of_pairwise (by norm_num [List.pairwise_cons])
  have hstd : (optimize_inventory [((0:ℤ), (5:ℝ)), ((1:ℤ), (5:ℝ))] 1).demand_std
      = some 0 := by
    show listStd ((aggregate [((0:ℤ), (5:ℝ)), ((1:ℤ), (5:ℝ))]).map Prod.snd) = some 0
    rw [hagg]
    show listStd [5, 5] = some 0
    rw [listStd, if_neg (by norm_num)]
    congr 1
    have hm : listMean [(5:ℝ), 5] = 5 := by
      rw [listMean]
      norm_num
    rw [hm]
    simp
  exact ⟨hstd, optimize_inventory_zero_or_undefined_std.1 _ _ hstd⟩
